import Mathlib

/-!
# Verification of the aws-misc operational scripts

Shallow embedding of the decision logic of two scripts:

* `s3_duplicity_auto_lifecycle.py` — reconciles a bucket lifecycle policy
  against discovered Duplicity archive prefixes (`archives_in_bucket`,
  `lifecycle_update`);
* `iam_letsencrypt_sync.py` — synchronizes local LetsEncrypt certificates
  into IAM server certificates (`certificate_expirations`, `iam_sync_certs`).

External API calls (S3 / IAM) are modelled as data: a paginated listing is a
list of pages, and the side-effecting calls of `iam_sync_certs` and the
lifecycle `put` become explicit action values returned by the embedded
functions.  Python exceptions become `Option`/`Except` failures.
-/

namespace AwsMisc

/-! ## Python values

`archives_in_bucket` builds a heterogeneous Python list (line 153 of the
source appends the list returned by the recursive call as a single element),
so the embedding needs a value type covering both strings and lists. -/

/-- A Python value as produced by `archives_in_bucket`: either a string or a
list of values. -/
inductive PyVal where
  | str (s : String)
  | list (l : List PyVal)

/-- True iff the Python value is a string. -/
def PyVal.isStr : PyVal → Bool
  | .str _ => true
  | .list _ => false

/-! ## `archives_in_bucket` (s3_duplicity_auto_lifecycle.py, lines 109-154)

One page of an S3 `list_objects_v2` response: its `CommonPrefixes` entries
and, when the listing is truncated, the `NextContinuationToken` leading to
the next page.  The remote listing is the list of pages in token order; the
call with no token returns the first page, and each continuation token
returns the following page. -/

/-- One page of the paginated S3 listing. -/
structure BucketPage where
  commonPrefixes : List String
  nextToken : Option String

/-- Embedding of `archives_in_bucket`: collect the `CommonPrefixes` of the
first page into `prefixes`; when a `NextContinuationToken` is present, the
source executes `prefixes.append(archives_in_bucket(bucket, token))`, which
appends the recursive result as one nested list element (not `extend`). -/
def archives_in_bucket : List BucketPage → List PyVal
  | [] => []
  | page :: rest =>
    let pfxs := page.commonPrefixes.map PyVal.str
    match page.nextToken with
    | some _ => pfxs ++ [PyVal.list (archives_in_bucket rest)]
    | none => pfxs

/-! ## `certificate_expirations` (iam_letsencrypt_sync.py, lines 79-109)

One page of an IAM `list_server_certificates` response: the
`(ServerCertificateName, Expiration)` metadata entries and, when truncated,
the `Marker` for the next page.  Expiration timestamps are modelled as
integers. -/

/-- One page of the paginated IAM server-certificate listing. -/
structure CertPage where
  metadataList : List (String × Int)
  marker : Option String

/-- Python dict insertion `d[k] = v` on an insertion-ordered association
list: overwrite the existing binding of `k` if present, else append. -/
def pyDictInsert (d : List (String × Int)) (k : String) (v : Int) :
    List (String × Int) :=
  if d.any (fun p => p.1 = k) then
    d.map (fun p => if p.1 = k then (k, v) else p)
  else d ++ [(k, v)]

/-- Embedding of `certificate_expirations`: build the `expires` dict from the
first page; when the response carries a `Marker` (a truncated listing), the
source evaluates `list_certificates(Marker=response[...])` — but no function
named `list_certificates` exists anywhere in the script, so Python raises
`NameError` and the pages after the first are never fetched. -/
def certificate_expirations : List CertPage → Except String (List (String × Int))
  | [] => .error "empty API response"
  | page :: _ =>
    let expires := page.metadataList.foldl (fun d p => pyDictInsert d p.1 p.2) []
    match page.marker with
    | some _ => .error "NameError: name list_certificates is not defined"
    | none => .ok expires

/-! ## The archive-path pattern

`lifecycle_update` classifies rules and parses archive prefixes with
`re.match('{}(.*?)/{}'.format(args.duplicity_prefix, args.file_prefix_archive), s)`,
i.e. the anchored pattern `dp(.*?)/fa` where `dp` and `fa` are interpolated
literally (the defaults `duplicity/` and `archive/` contain no regex
metacharacters, which the embedding assumes).  The lazy group `(.*?)`
captures the shortest run of non-newline characters after `dp` that is
followed by `/` and `fa`. -/

/-- Embedding of `s.startswith(pre)` on Python strings. -/
def pyStartswith (s pre : String) : Bool :=
  List.isPrefixOf pre.data s.data

/-- Lazy matching of `(.*?)sep` against `rest`: return the shortest run of
non-newline characters `g` such that `sep` directly follows `g` in `rest`,
or `none` when no such run exists. -/
def reMatchLazy (sep : List Char) : List Char → Option (List Char)
  | [] => if List.isPrefixOf sep [] then some [] else none
  | c :: rest =>
    if List.isPrefixOf sep (c :: rest) then some []
    else if c = '\n' then none
    else Option.map (fun g => c :: g) (reMatchLazy sep rest)

/-- Embedding of `re.match(dp + lazygroup + slash + fa, s)` returning the
captured group: `s` must start with the literal `dp`, then the shortest
non-newline run followed by `/` and the literal `fa` is captured. -/
def reMatchArchive (dp fa s : String) : Option String :=
  if List.isPrefixOf dp.data s.data then
    Option.map (fun g => String.mk g)
      (reMatchLazy ('/' :: fa.data) (s.data.drop dp.data.length))
  else none

/-! ## Lifecycle rules (s3_duplicity_auto_lifecycle.py, lines 174-259) -/

/-- One entry of a rule `Transitions` array: `Days` and `StorageClass`. -/
structure Transition where
  days : Int
  storageClass : String
deriving DecidableEq

/-- A lifecycle rule as handled by the script: identifier `ID`, filter
prefix `Filter.Prefix`, `Status`, and the `Transitions` array. -/
structure Rule where
  id : String
  filterPfx : String
  status : String
  transitions : List Transition
deriving DecidableEq

/-- The configuration read by `lifecycle_update`: `duplicity_prefix`,
`file_prefix_archive`, `clean`, `glacier_days`, `lifecycle_id_prefix`,
`noop`. -/
structure Args where
  duplicityPfx : String
  filePfxArchive : String
  clean : Bool
  glacierDays : Int
  lifecycleIdPfx : String
  noop : Bool

/-- The per-rule decision of the first loop of `lifecycle_update` (lines
210-222): a rule is kept in `newrules` iff its filter prefix does not match
the archive pattern (unrelated rule, preserved unconditionally), or it
matches but its identifier does not start with the configured identifier
prefix and `clean` is unset (foreign colliding rule). -/
def keepRule (a : Args) (r : Rule) : Bool :=
  match reMatchArchive a.duplicityPfx a.filePfxArchive r.filterPfx with
  | some _ => !(pyStartswith r.id a.lifecycleIdPfx) && !a.clean
  | none => true

/-- The existing rules carried over by the first loop of `lifecycle_update`,
in their original order. -/
def preservedRules (a : Args) (rules : List Rule) : List Rule :=
  rules.filter (keepRule a)

/-- The rule synthesized for one archive prefix (lines 234-244): identifier
`lifecycle_id_prefix + "-" + archive_name`, filter prefix the archive prefix
itself, status `Enabled`, and a single transition to `GLACIER` at
`glacier_days`. -/
def mkNewRule (a : Args) (archive archiveName : String) : Rule :=
  { id := a.lifecycleIdPfx ++ "-" ++ archiveName
    filterPfx := archive
    status := "Enabled"
    transitions := [{ days := a.glacierDays, storageClass := "GLACIER" }] }

/-- The second loop of `lifecycle_update` (lines 224-245): for each archive
prefix, parse the embedded archive name with the pattern and append the
synthesized rule; a prefix the pattern fails to parse raises (the
`.group(1)` call on `None`), modelled as `none`. -/
def synthRules (a : Args) : List String → Option (List Rule)
  | [] => some []
  | arc :: rest =>
    match reMatchArchive a.duplicityPfx a.filePfxArchive arc with
    | none => none
    | some name =>
      match synthRules a rest with
      | none => none
      | some rs => some (mkNewRule a arc name :: rs)

/-- The embedded archive names of a list of archive prefixes, failing when
any prefix does not parse. -/
def archiveNames (a : Args) : List String → Option (List String)
  | [] => some []
  | arc :: rest =>
    match reMatchArchive a.duplicityPfx a.filePfxArchive arc,
          archiveNames a rest with
    | some n, some ns => some (n :: ns)
    | _, _ => none

/-- The rule set computed by `lifecycle_update` (the value of `newrules` at
line 247): the preserved existing rules followed by the synthesized rules,
or failure when an archive prefix does not parse. -/
def lifecycle_update_rules (a : Args) (rules : List Rule)
    (archives : List String) : Option (List Rule) :=
  match synthRules a archives with
  | none => none
  | some synth => some (preservedRules a rules ++ synth)

/-- The observable outcome of `lifecycle_update`: the returned rule list and
the lifecycle `put` call it issued, if any. -/
structure LifecycleResult where
  newrules : List Rule
  putCall : Option (List Rule)
deriving DecidableEq

/-- Embedding of `lifecycle_update` (lines 208-259): compute `newrules`;
unless `noop` is set, apply it with `lifecycle.put(LifecycleConfiguration=
{Rules: newrules})`; return `newrules`. -/
def lifecycle_update (a : Args) (rules : List Rule) (archives : List String) :
    Option LifecycleResult :=
  match lifecycle_update_rules a rules archives with
  | none => none
  | some nr => some { newrules := nr, putCall := if a.noop then none else some nr }

/-- The bucket lifecycle configuration after a run: replaced wholesale by the
`put` payload when one was issued, untouched otherwise. -/
def applyPut (stored : List Rule) (res : LifecycleResult) : List Rule :=
  match res.putCall with
  | some rs => rs
  | none => stored

/-- The default configuration of `s3_duplicity_auto_lifecycle.py` (argparse
defaults, lines 38-101): `duplicity/`, `archive/`, no clean, 60 days,
identifier prefix `Duplicity-Auto-Lifecycle`, no noop. -/
def defaultArgs : Args :=
  { duplicityPfx := "duplicity/"
    filePfxArchive := "archive/"
    clean := false
    glacierDays := 60
    lifecycleIdPfx := "Duplicity-Auto-Lifecycle"
    noop := false }

/-- An unrelated rule: its filter prefix does not match the archive
pattern. -/
def customRule : Rule :=
  { id := "Custom-logs", filterPfx := "logs/", status := "Enabled", transitions := [] }

/-- A foreign colliding rule: its filter prefix matches the archive pattern
but its identifier lacks the managed identifier prefix. -/
def foreignRule : Rule :=
  { id := "Manual-backup", filterPfx := "duplicity/host1/archive/",
    status := "Enabled", transitions := [] }

/-- A tool-managed rule for an archive prefix that is no longer
discovered. -/
def oldManagedRule : Rule :=
  { id := "Duplicity-Auto-Lifecycle-old", filterPfx := "duplicity/old/archive/",
    status := "Enabled", transitions := [] }

/-- The default configuration with the `noop` flag set. -/
def noopArgs : Args :=
  { duplicityPfx := "duplicity/"
    filePfxArchive := "archive/"
    clean := false
    glacierDays := 60
    lifecycleIdPfx := "Duplicity-Auto-Lifecycle"
    noop := true }

/-! ## `iam_sync_certs` (iam_letsencrypt_sync.py, lines 131-164)

The IAM calls issued by the synchronization loop are modelled as an action
trace; timestamps are integers in seconds (UTC), so `timedelta(days=n)`
becomes `n * 86400`.  The remote state is the `expires` map of
`certificate_expirations`, modelled as an association list. -/

/-- An IAM server-certificate API call issued by the synchronization loop:
`delete_server_certificate` or `upload_server_certificate` for a name. -/
inductive IamAction where
  | delete (name : String)
  | upload (name : String)
deriving DecidableEq

/-- The configuration of `iam_letsencrypt_sync.py` relevant to the decision:
`--days` (replacement window) and `--force`. -/
structure SyncArgs where
  days : Int
  force : Bool

/-- `timedelta(days=d)` in seconds. -/
def timedeltaDays (d : Int) : Int := d * 86400

/-- The per-certificate decision of `iam_sync_certs` (lines 145-164): when a
remote entry exists, compute `replacedate = expiration - timedelta(days)`;
if `now >= replacedate`, delete then upload; else if `force`, delete then
upload; else nothing.  When no remote entry exists, upload only. -/
def syncOne (a : SyncArgs) (now : Int) (expires : List (String × Int))
    (certname : String) : List IamAction :=
  match expires.lookup certname with
  | some expTime =>
    if now ≥ expTime - timedeltaDays a.days then
      [.delete certname, .upload certname]
    else if a.force then
      [.delete certname, .upload certname]
    else []
  | none => [.upload certname]

/-- Embedding of `iam_sync_certs`: the trace of IAM calls issued while
iterating over the local certificate names in order. -/
def iam_sync_certs (a : SyncArgs) (now : Int) (expires : List (String × Int)) :
    List String → List IamAction
  | [] => []
  | c :: rest => syncOne a now expires c ++ iam_sync_certs a now expires rest

/-- The certificate name an action refers to. -/
def actionName : IamAction → String
  | .delete n => n
  | .upload n => n

/-- The sub-trace of actions referring to a given certificate name. -/
def actionsFor (name : String) (l : List IamAction) : List IamAction :=
  l.filter (fun act => actionName act == name)

/-! ## Helper lemmas -/

theorem isPrefixOf_append_self (l₁ l₂ : List Char) :
    List.isPrefixOf l₁ (l₁ ++ l₂) = true := by
  induction l₁ with
  | nil => simp [List.isPrefixOf]
  | cons c cs ih => simp [List.isPrefixOf, ih]

theorem pyStartswith_of_append (p s t : String) :
    pyStartswith (p ++ s ++ t) p = true := by
  have h : (p ++ s ++ t).data = p.data ++ (s.data ++ t.data) := by
    simp [String.data_append]
  simp [pyStartswith, h, isPrefixOf_append_self]

theorem string_append_cancel {p x y : String} (h : p ++ x = p ++ y) : x = y := by
  have hd : p.data ++ x.data = p.data ++ y.data := by
    have hc := congrArg String.data h
    simpa [String.data_append] using hc
  exact String.ext (List.append_cancel_left hd)

theorem mkId_injective (p s : String) :
    Function.Injective (fun n => p ++ s ++ n) := by
  intro x y h
  have h2 : (p ++ s) ++ x = (p ++ s) ++ y := h
  exact string_append_cancel h2

/-- Every rule produced by `synthRules` is `mkNewRule` of some archive of the
input list together with its embedded name. -/
theorem synthRules_mem (a : Args) :
    ∀ (archives : List String) (synth : List Rule),
      synthRules a archives = some synth →
      ∀ r ∈ synth, ∃ arc name, arc ∈ archives ∧
        reMatchArchive a.duplicityPfx a.filePfxArchive arc = some name ∧
        r = mkNewRule a arc name := by
  intro archives
  induction archives with
  | nil =>
    intro synth h r hr
    simp [synthRules] at h
    subst h
    cases hr
  | cons arc rest ih =>
    intro synth h r hr
    rw [synthRules] at h
    cases hm : reMatchArchive a.duplicityPfx a.filePfxArchive arc with
    | none => rw [hm] at h; cases h
    | some name =>
      rw [hm] at h
      cases hs : synthRules a rest with
      | none => rw [hs] at h; cases h
      | some rs =>
        rw [hs] at h
        injection h with h
        subst h
        rcases hr with _ | ⟨_, hr⟩
        · exact ⟨arc, name, List.mem_cons_self .., hm, rfl⟩
        · rcases ih rs hs r hr with ⟨arc2, name2, hmem, hm2, hr2⟩
          exact ⟨arc2, name2, List.mem_cons_of_mem _ hmem, hm2, hr2⟩

/-- A synthesized rule is never kept by the preservation loop: its filter
prefix matches the pattern and its identifier starts with the configured
identifier prefix. -/
theorem keepRule_mkNewRule (a : Args) (arc name : String)
    (h : reMatchArchive a.duplicityPfx a.filePfxArchive arc = some name) :
    keepRule a (mkNewRule a arc name) = false := by
  simp [keepRule, mkNewRule, h, pyStartswith_of_append]

/-- The preservation loop drops every synthesized rule. -/
theorem filter_keep_synth (a : Args) (archives : List String) (synth : List Rule)
    (h : synthRules a archives = some synth) :
    synth.filter (keepRule a) = [] := by
  rw [List.filter_eq_nil_iff]
  intro r hr
  rcases synthRules_mem a archives synth h r hr with ⟨arc, name, _, hm, hr2⟩
  subst hr2
  simp [keepRule_mkNewRule a arc name hm]

/-- `archiveNames` determines `synthRules`: the synthesized rules are
`mkNewRule` applied pointwise to the archives zipped with their names. -/
theorem synthRules_eq_of_names (a : Args) :
    ∀ (archives names : List String),
      archiveNames a archives = some names →
      synthRules a archives
        = some ((archives.zip names).map (fun p => mkNewRule a p.1 p.2)) := by
  intro archives
  induction archives with
  | nil =>
    intro names h
    simp [archiveNames] at h
    subst h
    rfl
  | cons arc rest ih =>
    intro names h
    rw [archiveNames] at h
    cases hm : reMatchArchive a.duplicityPfx a.filePfxArchive arc with
    | none => rw [hm] at h; cases h
    | some n =>
      rw [hm] at h
      cases hr : archiveNames a rest with
      | none => rw [hr] at h; cases h
      | some ns =>
        rw [hr] at h
        injection h with h
        subst h
        rw [synthRules, hm, ih ns hr]
        rfl

/-- The identifiers of the synthesized rules are the embedded names prefixed
with the configured identifier prefix and a hyphen. -/
theorem zipmap_ids (a : Args) :
    ∀ (archives names : List String),
      archiveNames a archives = some names →
      (((archives.zip names).map (fun p => mkNewRule a p.1 p.2)).map Rule.id)
        = names.map (fun n => a.lifecycleIdPfx ++ "-" ++ n) := by
  intro archives
  induction archives with
  | nil =>
    intro names h
    simp [archiveNames] at h
    subst h
    rfl
  | cons arc rest ih =>
    intro names h
    rw [archiveNames] at h
    cases hm : reMatchArchive a.duplicityPfx a.filePfxArchive arc with
    | none => rw [hm] at h; cases h
    | some n =>
      rw [hm] at h
      cases hr : archiveNames a rest with
      | none => rw [hr] at h; cases h
      | some ns =>
        rw [hr] at h
        injection h with h
        subst h
        rw [List.zip_cons_cons, List.map_cons, List.map_cons, List.map_cons,
            ih ns hr]
        rfl

/-- Claim C6: the claim states that for a bucket listing split across pages,
`archives_in_bucket` returns the flat concatenation of all pages'
`CommonPrefixes`, every element being a string.  The code instead appends the
recursive result as a single nested list element: on a two-page listing the
returned value has a non-string last element, so the flat-list property
fails (the spec is the evident intent — the caller `lifecycle_update` runs
`re.match` on each element, which requires strings). -/
theorem claim_C6_code_bug :
    archives_in_bucket
        [⟨["duplicity/a/archive/"], some "tok"⟩, ⟨["duplicity/b/archive/"], none⟩]
      = [PyVal.str "duplicity/a/archive/",
         PyVal.list [PyVal.str "duplicity/b/archive/"]]
    ∧ (archives_in_bucket
        [⟨["duplicity/a/archive/"], some "tok"⟩,
         ⟨["duplicity/b/archive/"], none⟩]).all PyVal.isStr = false :=
  ⟨rfl, rfl⟩

/-- Claim C5: the claim states that a paginated server-certificate listing is
merged into one map with no name dropped.  On any listing whose first
response carries a `Marker`, the code instead fails with a `NameError`
(`list_certificates` is undefined), dropping every page after the first;
a single-page listing does produce the full map. -/
theorem claim_C5_code_bug :
    certificate_expirations
        [⟨[("certA", 100)], some "m1"⟩, ⟨[("certB", 200)], none⟩]
      = .error "NameError: name list_certificates is not defined"
    ∧ certificate_expirations [⟨[("certA", 100), ("certB", 200)], none⟩]
      = .ok [("certA", 100), ("certB", 200)] :=
  ⟨rfl, rfl⟩

/-- Occurrence count of a synthesized rule in the synthesized block: exactly
one when the archive occurs in a duplicate-free archive list. -/
theorem synthRules_count (a : Args) :
    ∀ (archives : List String) (synth : List Rule) (arc name : String),
      synthRules a archives = some synth →
      archives.Nodup → arc ∈ archives →
      reMatchArchive a.duplicityPfx a.filePfxArchive arc = some name →
      synth.count (mkNewRule a arc name) = 1 := by
  intro archives
  induction archives with
  | nil => intro synth arc name h hnd hmem hm; cases hmem
  | cons arc0 rest ih =>
    intro synth arc name h hnd hmem hm
    rw [synthRules] at h
    cases hm0 : reMatchArchive a.duplicityPfx a.filePfxArchive arc0 with
    | none => rw [hm0] at h; cases h
    | some name0 =>
      rw [hm0] at h
      cases hs : synthRules a rest with
      | none => rw [hs] at h; cases h
      | some rs =>
        rw [hs] at h
        injection h with h
        subst h
        rcases List.mem_cons.mp hmem with heq | hmem2
        · subst heq
          rw [hm] at hm0
          injection hm0 with hname0
          subst hname0
          have hzero : mkNewRule a arc name ∉ rs := by
            intro hmemrs
            rcases synthRules_mem a rest rs hs _ hmemrs with ⟨arc2, nm2, hmem3, _, heq2⟩
            have hfp : arc = arc2 := congrArg Rule.filterPfx heq2
            rw [hfp] at hnd
            exact (List.nodup_cons.mp hnd).1 hmem3
          rw [List.count_cons_self, List.count_eq_zero.mpr hzero]
        · have hne : mkNewRule a arc name ≠ mkNewRule a arc0 name0 := by
            intro heq
            have hfp : arc = arc0 := congrArg Rule.filterPfx heq
            rw [hfp] at hmem2
            exact (List.nodup_cons.mp hnd).1 hmem2
          rw [List.count_cons_of_ne hne]
          exact ih rs arc name hs (List.nodup_cons.mp hnd).2 hmem2 hm

/-- Claim C3: reconciliation is idempotent — when the rule computation of
`lifecycle_update` succeeds, applying it a second time to its own output with
the same archive prefixes and configuration yields the same rule set. -/
theorem claim_C3_thm (a : Args) (rules : List Rule) (archives : List String)
    (out : List Rule) (h : lifecycle_update_rules a rules archives = some out) :
    lifecycle_update_rules a out archives = some out := by
  rw [lifecycle_update_rules] at h
  cases hs : synthRules a archives with
  | none => rw [hs] at h; cases h
  | some synth =>
    rw [hs] at h
    injection h with h
    subst h
    rw [lifecycle_update_rules, hs]
    have hfs : synth.filter (keepRule a) = [] := filter_keep_synth a archives synth hs
    simp only [preservedRules, List.filter_append, List.filter_filter,
      Bool.and_self, hfs, List.append_nil]

/-- Claim C1 (amended): when the rule computation succeeds and the embedded
archive names are pairwise distinct, the output is exactly the preserved
foreign and unrelated rules followed by one synthesized rule per discovered
archive prefix; if moreover the preserved rules carry pairwise-distinct
identifiers, none equal to a synthesized identifier, then no two rules of the
output share an identifier. -/
theorem claim_C1_thm (a : Args) (rules : List Rule) (archives names : List String)
    (out : List Rule)
    (h : lifecycle_update_rules a rules archives = some out)
    (hn : archiveNames a archives = some names)
    (hnd : names.Nodup)
    (hpres : ((preservedRules a rules).map Rule.id).Nodup)
    (hcross : ∀ r ∈ preservedRules a rules, ∀ n ∈ names,
        r.id ≠ a.lifecycleIdPfx ++ "-" ++ n) :
    out = preservedRules a rules
            ++ (archives.zip names).map (fun p => mkNewRule a p.1 p.2)
      ∧ (out.map Rule.id).Nodup := by
  have hsynth := synthRules_eq_of_names a archives names hn
  rw [lifecycle_update_rules, hsynth] at h
  injection h with h
  subst h
  refine ⟨rfl, ?_⟩
  rw [List.map_append, zipmap_ids a archives names hn]
  refine List.Nodup.append hpres (hnd.map (mkId_injective a.lifecycleIdPfx "-")) ?_
  intro x hx hy
  rcases List.mem_map.mp hx with ⟨r, hrmem, hrx⟩
  rcases List.mem_map.mp hy with ⟨n, hnmem, hnx⟩
  exact hcross r hrmem n hnmem (hrx.trans hnx.symm)

/-- Claim C2: a foreign rule whose filter prefix matches the archive pattern
but whose identifier lacks the configured identifier prefix is in the output
rule set iff `clean` is unset; a rule whose filter prefix does not match the
pattern is in the output rule set unconditionally. -/
theorem claim_C2_thm (a : Args) (rules : List Rule) (archives : List String)
    (out : List Rule) (r : Rule)
    (h : lifecycle_update_rules a rules archives = some out)
    (hr : r ∈ rules) :
    ((∃ g, reMatchArchive a.duplicityPfx a.filePfxArchive r.filterPfx = some g) →
        pyStartswith r.id a.lifecycleIdPfx = false →
        (r ∈ out ↔ a.clean = false))
      ∧ (reMatchArchive a.duplicityPfx a.filePfxArchive r.filterPfx = none →
        r ∈ out) := by
  rw [lifecycle_update_rules] at h
  cases hs : synthRules a archives with
  | none => rw [hs] at h; cases h
  | some synth =>
    rw [hs] at h
    injection h with h
    subst h
    constructor
    · rintro ⟨g, hg⟩ hst
      have hkeep : keepRule a r = !a.clean := by simp [keepRule, hg, hst]
      cases hc : a.clean with
      | false =>
        refine iff_of_true ?_ rfl
        refine List.mem_append.mpr (Or.inl (List.mem_filter.mpr ⟨hr, ?_⟩))
        simp [hkeep, hc]
      | true =>
        refine iff_of_false (fun hmem => ?_) (by simp)
        rcases List.mem_append.mp hmem with hp | hsy
        · have hk := (List.mem_filter.mp hp).2
          rw [hkeep, hc] at hk
          cases hk
        · rcases synthRules_mem a archives synth hs r hsy with ⟨arc, nm, _, hm2, hreq⟩
          rw [hreq] at hst
          simp [mkNewRule, pyStartswith_of_append] at hst
    · intro hnone
      have hkeep : keepRule a r = true := by simp [keepRule, hnone]
      exact List.mem_append.mpr (Or.inl (List.mem_filter.mpr ⟨hr, hkeep⟩))

/-- Claim C10: a rule whose filter prefix matches the archive pattern and
whose identifier starts with the configured identifier prefix is dropped by
the preservation loop regardless of `clean`; when its filter prefix is not
among the discovered archives it is absent from the whole output rule set. -/
theorem claim_C10_thm (a : Args) (rules : List Rule) (archives : List String)
    (out : List Rule) (r : Rule) (g : String)
    (h : lifecycle_update_rules a rules archives = some out)
    (hm : reMatchArchive a.duplicityPfx a.filePfxArchive r.filterPfx = some g)
    (hid : pyStartswith r.id a.lifecycleIdPfx = true)
    (harc : r.filterPfx ∉ archives) :
    r ∉ preservedRules a rules ∧ r ∉ out := by
  have hkeep : keepRule a r = false := by simp [keepRule, hm, hid]
  have hnp : r ∉ preservedRules a rules := by
    intro hp
    have hk := (List.mem_filter.mp hp).2
    rw [hkeep] at hk
    cases hk
  refine ⟨hnp, ?_⟩
  rw [lifecycle_update_rules] at h
  cases hs : synthRules a archives with
  | none => rw [hs] at h; cases h
  | some synth =>
    rw [hs] at h
    injection h with h
    subst h
    intro hmem
    rcases List.mem_append.mp hmem with hp | hsy
    · exact hnp hp
    · rcases synthRules_mem a archives synth hs r hsy with ⟨arc, nm, hamem, _, hreq⟩
      have hfp : r.filterPfx = arc := congrArg Rule.filterPfx hreq
      rw [hfp] at harc
      exact harc hamem

/-- Claim C7 (amended): for each discovered archive prefix of a
duplicate-free archive list, the output rule set contains exactly one
occurrence of the rule synthesized for it, whose identifier is the configured
identifier prefix, a hyphen, and the embedded archive name, whose filter
prefix is the archive prefix itself, whose status is `Enabled`, and whose
only transition moves objects to `GLACIER` at the configured day count. -/
theorem claim_C7_thm (a : Args) (rules : List Rule) (archives : List String)
    (out : List Rule) (arc name : String)
    (h : lifecycle_update_rules a rules archives = some out)
    (hnd : archives.Nodup) (harc : arc ∈ archives)
    (hname : reMatchArchive a.duplicityPfx a.filePfxArchive arc = some name) :
    out.count (mkNewRule a arc name) = 1
    ∧ mkNewRule a arc name
        = { id := a.lifecycleIdPfx ++ "-" ++ name
            filterPfx := arc
            status := "Enabled"
            transitions := [{ days := a.glacierDays, storageClass := "GLACIER" }] } := by
  refine ⟨?_, rfl⟩
  rw [lifecycle_update_rules] at h
  cases hs : synthRules a archives with
  | none => rw [hs] at h; cases h
  | some synth =>
    rw [hs] at h
    injection h with h
    subst h
    rw [List.count_append]
    have hnp : mkNewRule a arc name ∉ preservedRules a rules := by
      intro hp
      have hk := (List.mem_filter.mp hp).2
      rw [keepRule_mkNewRule a arc name hname] at hk
      cases hk
    rw [List.count_eq_zero.mpr hnp,
        synthRules_count a archives synth arc name hs hnd harc hname]

/-- Claim C8: when `noop` is set, `lifecycle_update` computes and returns the
rule set but issues no `put`, leaving the stored lifecycle configuration
unchanged; when `noop` is unset, the `put` is issued with exactly the
computed rule set. -/
theorem claim_C8_thm (a : Args) (rules : List Rule) (archives : List String)
    (stored : List Rule) (res : LifecycleResult)
    (h : lifecycle_update a rules archives = some res) :
    lifecycle_update_rules a rules archives = some res.newrules
    ∧ (a.noop = true → res.putCall = none ∧ applyPut stored res = stored)
    ∧ (a.noop = false → res.putCall = some res.newrules) := by
  rw [lifecycle_update] at h
  cases hr : lifecycle_update_rules a rules archives with
  | none => rw [hr] at h; cases h
  | some nr =>
    rw [hr] at h
    injection h with h
    subst h
    refine ⟨rfl, fun hn => ⟨by simp [hn], by simp [applyPut, hn]⟩,
      fun hn => by simp [hn]⟩

/-- Claim C1, counterexample to the claim as stated: with the single archive
prefix `duplicity/a/archive/` (whose embedded name list `[a]` is trivially
pairwise distinct) and one existing unrelated rule whose identifier happens
to be `Duplicity-Auto-Lifecycle-a`, the computed rule set carries two rules
with the same identifier. -/
theorem claim_C1_counterexample :
    archiveNames defaultArgs ["duplicity/a/archive/"] = some ["a"]
    ∧ (["a"] : List String).Nodup
    ∧ (lifecycle_update_rules defaultArgs
          [{ id := "Duplicity-Auto-Lifecycle-a", filterPfx := "other/",
             status := "Enabled", transitions := [] }]
          ["duplicity/a/archive/"]).map (fun l => l.map Rule.id)
        = some ["Duplicity-Auto-Lifecycle-a", "Duplicity-Auto-Lifecycle-a"]
    ∧ ¬ (["Duplicity-Auto-Lifecycle-a",
          "Duplicity-Auto-Lifecycle-a"] : List String).Nodup :=
  ⟨by decide, by decide, by decide, by decide⟩

/-- Claim C1, witness: one unrelated rule and one archive prefix, with all
distinctness hypotheses discharged concretely. -/
theorem claim_C1_witness :
    (lifecycle_update_rules defaultArgs [customRule] ["duplicity/host1/archive/"]
        = some [customRule, mkNewRule defaultArgs "duplicity/host1/archive/" "host1"]
      ∧ archiveNames defaultArgs ["duplicity/host1/archive/"] = some ["host1"]
      ∧ (["host1"] : List String).Nodup
      ∧ ((preservedRules defaultArgs [customRule]).map Rule.id).Nodup
      ∧ ∀ r ∈ preservedRules defaultArgs [customRule], ∀ n ∈ ["host1"],
          r.id ≠ defaultArgs.lifecycleIdPfx ++ "-" ++ n)
    ∧ ([customRule, mkNewRule defaultArgs "duplicity/host1/archive/" "host1"]
          = preservedRules defaultArgs [customRule]
              ++ ((["duplicity/host1/archive/"].zip ["host1"]).map
                    (fun p => mkNewRule defaultArgs p.1 p.2))
        ∧ (([customRule,
             mkNewRule defaultArgs "duplicity/host1/archive/" "host1"]).map
              Rule.id).Nodup) :=
  ⟨⟨by decide, by decide, by decide, by decide, by decide⟩,
    claim_C1_thm defaultArgs [customRule] ["duplicity/host1/archive/"] ["host1"]
      [customRule, mkNewRule defaultArgs "duplicity/host1/archive/" "host1"]
      (by decide) (by decide) (by decide) (by decide) (by decide)⟩

/-- Claim C2, witness: a foreign colliding rule under the default (clean
unset) configuration with no discovered archives. -/
theorem claim_C2_witness :
    (lifecycle_update_rules defaultArgs [foreignRule] [] = some [foreignRule]
      ∧ foreignRule ∈ [foreignRule])
    ∧ (((∃ g, reMatchArchive defaultArgs.duplicityPfx defaultArgs.filePfxArchive
            foreignRule.filterPfx = some g) →
          pyStartswith foreignRule.id defaultArgs.lifecycleIdPfx = false →
          (foreignRule ∈ [foreignRule] ↔ defaultArgs.clean = false))
        ∧ (reMatchArchive defaultArgs.duplicityPfx defaultArgs.filePfxArchive
            foreignRule.filterPfx = none →
          foreignRule ∈ [foreignRule])) :=
  ⟨⟨by decide, by decide⟩,
    claim_C2_thm defaultArgs [foreignRule] [] [foreignRule] foreignRule
      (by decide) (by decide)⟩

/-- Claim C3, witness: the computation applied to its own output on one
archive prefix returns that output unchanged. -/
theorem claim_C3_witness :
    lifecycle_update_rules defaultArgs [] ["duplicity/a/archive/"]
        = some [mkNewRule defaultArgs "duplicity/a/archive/" "a"]
    ∧ lifecycle_update_rules defaultArgs
          [mkNewRule defaultArgs "duplicity/a/archive/" "a"]
          ["duplicity/a/archive/"]
        = some [mkNewRule defaultArgs "duplicity/a/archive/" "a"] :=
  ⟨by decide,
    claim_C3_thm defaultArgs [] ["duplicity/a/archive/"]
      [mkNewRule defaultArgs "duplicity/a/archive/" "a"] (by decide)⟩

/-- Claim C7, counterexample to the claim as stated: on the claim's own
example input the synthesized identifier is
`Duplicity-Auto-Lifecycle-archive/x`, which is not the configured identifier
prefix directly followed by the embedded archive name (the code inserts a
hyphen between the two). -/
theorem claim_C7_counterexample :
    (lifecycle_update_rules defaultArgs [] ["duplicity/archive/x/archive/"]).map
        (fun l => l.map Rule.id)
      = some ["Duplicity-Auto-Lifecycle-archive/x"]
    ∧ "Duplicity-Auto-Lifecycle-archive/x"
        ≠ defaultArgs.lifecycleIdPfx ++ "archive/x" :=
  ⟨by decide, by decide⟩

/-- Claim C7, witness: the claim's example — archive prefixes
`[duplicity/archive/x/archive/]`, no existing rules, 60 glacier days — yields
exactly one rule, transitioning that prefix to `GLACIER` at day 60. -/
theorem claim_C7_witness :
    (lifecycle_update_rules defaultArgs [] ["duplicity/archive/x/archive/"]
        = some [mkNewRule defaultArgs "duplicity/archive/x/archive/" "archive/x"]
      ∧ (["duplicity/archive/x/archive/"] : List String).Nodup
      ∧ "duplicity/archive/x/archive/" ∈ ["duplicity/archive/x/archive/"]
      ∧ reMatchArchive defaultArgs.duplicityPfx defaultArgs.filePfxArchive
          "duplicity/archive/x/archive/" = some "archive/x")
    ∧ ([mkNewRule defaultArgs "duplicity/archive/x/archive/" "archive/x"].count
          (mkNewRule defaultArgs "duplicity/archive/x/archive/" "archive/x") = 1
        ∧ mkNewRule defaultArgs "duplicity/archive/x/archive/" "archive/x"
          = { id := defaultArgs.lifecycleIdPfx ++ "-" ++ "archive/x"
              filterPfx := "duplicity/archive/x/archive/"
              status := "Enabled"
              transitions := [{ days := defaultArgs.glacierDays,
                                storageClass := "GLACIER" }] }) :=
  ⟨⟨by decide, by decide, by decide, by decide⟩,
    claim_C7_thm defaultArgs [] ["duplicity/archive/x/archive/"]
      [mkNewRule defaultArgs "duplicity/archive/x/archive/" "archive/x"]
      "duplicity/archive/x/archive/" "archive/x"
      (by decide) (by decide) (by decide) (by decide)⟩

/-- Claim C8, witness: with `noop` set, the result carries the computed rule
set, no `put` call is issued, and the stored configuration is unchanged. -/
theorem claim_C8_witness :
    lifecycle_update noopArgs [] ["duplicity/a/archive/"]
        = some { newrules := [mkNewRule noopArgs "duplicity/a/archive/" "a"],
                 putCall := none }
    ∧ (lifecycle_update_rules noopArgs [] ["duplicity/a/archive/"]
          = some (LifecycleResult.newrules
              { newrules := [mkNewRule noopArgs "duplicity/a/archive/" "a"],
                putCall := none })
        ∧ (noopArgs.noop = true →
            LifecycleResult.putCall
                { newrules := [mkNewRule noopArgs "duplicity/a/archive/" "a"],
                  putCall := none } = none
            ∧ applyPut [customRule]
                { newrules := [mkNewRule noopArgs "duplicity/a/archive/" "a"],
                  putCall := none } = [customRule])
        ∧ (noopArgs.noop = false →
            LifecycleResult.putCall
                { newrules := [mkNewRule noopArgs "duplicity/a/archive/" "a"],
                  putCall := none }
              = some (LifecycleResult.newrules
                  { newrules := [mkNewRule noopArgs "duplicity/a/archive/" "a"],
                    putCall := none }))) :=
  ⟨by decide,
    claim_C8_thm noopArgs [] ["duplicity/a/archive/"] [customRule]
      { newrules := [mkNewRule noopArgs "duplicity/a/archive/" "a"],
        putCall := none }
      (by decide)⟩

/-- Claim C10, witness: a stale tool-managed rule is absent from both the
preserved rules and the whole output. -/
theorem claim_C10_witness :
    (lifecycle_update_rules defaultArgs [oldManagedRule] ["duplicity/new/archive/"]
        = some [mkNewRule defaultArgs "duplicity/new/archive/" "new"]
      ∧ reMatchArchive defaultArgs.duplicityPfx defaultArgs.filePfxArchive
          oldManagedRule.filterPfx = some "old"
      ∧ pyStartswith oldManagedRule.id defaultArgs.lifecycleIdPfx = true
      ∧ oldManagedRule.filterPfx ∉ ["duplicity/new/archive/"])
    ∧ (oldManagedRule ∉ preservedRules defaultArgs [oldManagedRule]
        ∧ oldManagedRule ∉ [mkNewRule defaultArgs "duplicity/new/archive/" "new"]) :=
  ⟨⟨by decide, by decide, by decide, by decide⟩,
    claim_C10_thm defaultArgs [oldManagedRule] ["duplicity/new/archive/"]
      [mkNewRule defaultArgs "duplicity/new/archive/" "new"] oldManagedRule "old"
      (by decide) (by decide) (by decide) (by decide)⟩

/-- Every action issued by the per-certificate decision refers to that
certificate. -/
theorem syncOne_names (a : SyncArgs) (now : Int) (expires : List (String × Int))
    (c : String) : ∀ act ∈ syncOne a now expires c, actionName act = c := by
  intro act hact
  rw [syncOne] at hact
  cases hl : List.lookup c expires with
  | none =>
    rw [hl] at hact
    simp only [List.mem_singleton] at hact
    subst hact
    rfl
  | some e =>
    rw [hl] at hact
    simp only at hact
    split at hact
    · rcases List.mem_cons.mp hact with h | h
      · subst h; rfl
      · simp only [List.mem_singleton] at h; subst h; rfl
    · split at hact
      · rcases List.mem_cons.mp hact with h | h
        · subst h; rfl
        · simp only [List.mem_singleton] at h; subst h; rfl
      · cases hact

/-- Every action issued by the synchronization loop refers to one of the
iterated certificate names. -/
theorem sync_names (a : SyncArgs) (now : Int) (expires : List (String × Int)) :
    ∀ (certnames : List String), ∀ act ∈ iam_sync_certs a now expires certnames,
      actionName act ∈ certnames := by
  intro certnames
  induction certnames with
  | nil => intro act h; cases h
  | cons c rest ih =>
    intro act h
    rw [iam_sync_certs] at h
    rcases List.mem_append.mp h with h1 | h2
    · rw [syncOne_names a now expires c act h1]
      exact List.mem_cons_self ..
    · exact List.mem_cons_of_mem _ (ih act h2)

/-- On a duplicate-free certificate name list, the actions referring to one
of its names are exactly the actions of that name's own decision. -/
theorem actionsFor_sync (a : SyncArgs) (now : Int) (expires : List (String × Int)) :
    ∀ (certnames : List String) (c : String), certnames.Nodup → c ∈ certnames →
      actionsFor c (iam_sync_certs a now expires certnames)
        = syncOne a now expires c := by
  intro certnames
  induction certnames with
  | nil => intro c _ hmem; cases hmem
  | cons d rest ih =>
    intro c hnd hmem
    rw [iam_sync_certs, actionsFor, List.filter_append]
    rcases List.mem_cons.mp hmem with heq | hmem2
    · subst heq
      have h1 : (syncOne a now expires c).filter (fun act => actionName act == c)
          = syncOne a now expires c := by
        rw [List.filter_eq_self]
        intro act hact
        simp [syncOne_names a now expires c act hact]
      have h2 : (iam_sync_certs a now expires rest).filter
          (fun act => actionName act == c) = [] := by
        rw [List.filter_eq_nil_iff]
        intro act hact
        have hmem3 := sync_names a now expires rest act hact
        have hne : actionName act ≠ c := by
          intro he
          rw [he] at hmem3
          exact (List.nodup_cons.mp hnd).1 hmem3
        simp [hne]
      rw [h1, h2, List.append_nil]
    · have hdc : d ≠ c := by
        intro he
        subst he
        exact (List.nodup_cons.mp hnd).1 hmem2
      have h1 : (syncOne a now expires d).filter (fun act => actionName act == c)
          = [] := by
        rw [List.filter_eq_nil_iff]
        intro act hact
        have hn := syncOne_names a now expires d act hact
        simp [hn, hdc]
      rw [h1, List.nil_append]
      have hrec := ih c (List.nodup_cons.mp hnd).2 hmem2
      rw [actionsFor] at hrec
      exact hrec

/-- Claim C4 (amended): for a local certificate present remotely, when
`expiration - now` is below the window the loop deletes then uploads it;
when `expiration - now` strictly exceeds the window and `force` is unset it
issues no call for it.  (At `expiration - now` exactly equal to the window
the code replaces, since its test `now >= replacedate` is inclusive.) -/
theorem claim_C4_thm (a : SyncArgs) (now : Int) (expires : List (String × Int))
    (certnames : List String) (certname : String) (expTime : Int)
    (hnd : certnames.Nodup) (hmem : certname ∈ certnames)
    (hlook : expires.lookup certname = some expTime) :
    (expTime - now < timedeltaDays a.days →
        actionsFor certname (iam_sync_certs a now expires certnames)
          = [.delete certname, .upload certname])
    ∧ (timedeltaDays a.days < expTime - now → a.force = false →
        actionsFor certname (iam_sync_certs a now expires certnames) = []) := by
  rw [actionsFor_sync a now expires certnames certname hnd hmem]
  rw [syncOne, hlook]
  constructor
  · intro hlt
    have hge : now ≥ expTime - timedeltaDays a.days := by omega
    simp [hge]
  · intro hgt hforce
    have hng : ¬ now ≥ expTime - timedeltaDays a.days := by omega
    simp [hng, hforce]

/-- Claim C4, counterexample to the claim as stated: at the boundary
`expiration - now = window` (no force), the claim requires that neither call
occur, but the inclusive test of the code deletes and re-uploads. -/
theorem claim_C4_counterexample :
    ((2592000 : Int) - 0 ≥ timedeltaDays 30
      ∧ SyncArgs.force { days := 30, force := false } = false)
    ∧ actionsFor "certA"
        (iam_sync_certs { days := 30, force := false } 0 [("certA", 2592000)]
          ["certA"])
      = [.delete "certA", .upload "certA"] :=
  ⟨⟨by decide, rfl⟩, by decide⟩

/-- Claim C4, witness: a certificate 1000 seconds from expiry with a 30-day
window is deleted and re-uploaded. -/
theorem claim_C4_witness :
    ((["certA"] : List String).Nodup
      ∧ "certA" ∈ ["certA"]
      ∧ List.lookup "certA" [("certA", (1000 : Int))] = some 1000)
    ∧ (((1000 : Int) - 0 < timedeltaDays 30 →
          actionsFor "certA"
              (iam_sync_certs { days := 30, force := false } 0
                [("certA", 1000)] ["certA"])
            = [.delete "certA", .upload "certA"])
        ∧ (timedeltaDays 30 < (1000 : Int) - 0 →
          SyncArgs.force { days := 30, force := false } = false →
          actionsFor "certA"
              (iam_sync_certs { days := 30, force := false } 0
                [("certA", 1000)] ["certA"])
            = [])) :=
  ⟨⟨by decide, by decide, rfl⟩,
    claim_C4_thm { days := 30, force := false } 0 [("certA", 1000)] ["certA"]
      "certA" 1000 (by decide) (by decide) rfl⟩

/-- Claim C9: a local certificate name absent from the remote map is uploaded
exactly once and never deleted, regardless of the force flag. -/
theorem claim_C9_thm (a : SyncArgs) (now : Int) (expires : List (String × Int))
    (certnames : List String) (certname : String)
    (hnd : certnames.Nodup) (hmem : certname ∈ certnames)
    (hlook : expires.lookup certname = none) :
    (iam_sync_certs a now expires certnames).count (.upload certname) = 1
    ∧ (iam_sync_certs a now expires certnames).count (.delete certname) = 0 := by
  have hb := actionsFor_sync a now expires certnames certname hnd hmem
  rw [syncOne, hlook] at hb
  constructor
  · have hcf : (actionsFor certname (iam_sync_certs a now expires certnames)).count
        (IamAction.upload certname)
        = (iam_sync_certs a now expires certnames).count
            (IamAction.upload certname) :=
      List.count_filter (by simp [actionName])
    rw [← hcf, hb]
    simp
  · have hcf : (actionsFor certname (iam_sync_certs a now expires certnames)).count
        (IamAction.delete certname)
        = (iam_sync_certs a now expires certnames).count
            (IamAction.delete certname) :=
      List.count_filter (by simp [actionName])
    rw [← hcf, hb]
    simp

/-- Claim C9, witness: a certificate name with no remote entry is uploaded
once and never deleted. -/
theorem claim_C9_witness :
    ((["certB"] : List String).Nodup
      ∧ "certB" ∈ ["certB"]
      ∧ List.lookup "certB" ([] : List (String × Int)) = none)
    ∧ ((iam_sync_certs { days := 30, force := false } 0 [] ["certB"]).count
          (.upload "certB") = 1
        ∧ (iam_sync_certs { days := 30, force := false } 0 [] ["certB"]).count
            (.delete "certB") = 0) :=
  ⟨⟨by decide, by decide, rfl⟩,
    claim_C9_thm { days := 30, force := false } 0 [] ["certB"] "certB"
      (by decide) (by decide) rfl⟩

end AwsMisc
